import Mathlib

/-!
Shallow embedding of `main.py` from djangocon/pretalx-api-import.

Python strings are modelled as `List Char` (called `Str` below), which keeps
all string operations inductively defined and provable.  External
collaborators that are not part of the repository (the `slugify` library,
`dateutil.parser.parse` + `pytz` time-zone conversion, the `frontmatter`
parser, and the HTTP client `requests`) are taken as explicit function
parameters of the pipeline, so every theorem quantifies over them; witnesses
instantiate them with concrete executable functions.

File-system writes, network fetches and console reports are modelled as
data returned by the pipeline functions (lists of writes, list of fetched
URLs, optional reported record) instead of side effects.
-/

set_option maxHeartbeats 1000000

namespace Pretalx

/-- Python strings, modelled as lists of characters. -/
abbrev Str := List Char

/-- Python `str.split(sep)` for a one-character separator: splits at every
occurrence, keeping empty parts (`"a@@b".split("@") == ["a", "", "b"]`). -/
def splitOnChar (c : Char) : Str → List Str
  | [] => [[]]
  | x :: xs =>
    let r := splitOnChar c xs
    if x = c then [] :: r
    else
      match r with
      | [] => [[x]]
      | y :: ys => (x :: y) :: ys

/-- The function `splitOnChar` never returns the empty list of parts. -/
theorem splitOnChar_ne_nil (c : Char) (s : Str) : splitOnChar c s ≠ [] := by
  cases s with
  | nil => simp [splitOnChar]
  | cons x xs =>
    simp only [splitOnChar]
    split
    · simp
    · cases splitOnChar c xs with
      | nil => simp
      | cons y ys => simp

/-- Python `s.rsplit(sep, 1)` for a one-character separator: at most one
split, taken from the right. -/
def rsplit1 (c : Char) (s : Str) : List Str :=
  let parts := splitOnChar c s
  if parts.length ≤ 1 then [s]
  else [(List.intercalate [c] parts.dropLast), parts.getLastD []]

/-- Python `"\n".join(line.rstrip() for line in s.splitlines())`: strip
trailing whitespace from every line.  Only `\n` line breaks are modelled. -/
def rstripLines (s : Str) : Str :=
  List.intercalate ['\n']
    ((splitOnChar '\n' s).map (fun l => (l.reverse.dropWhile (·.isWhitespace)).reverse))

/-- Python `s.replace(old, new)` where `old` is a single character. -/
def replaceChar (c : Char) (new : Str) (s : Str) : Str :=
  (s.map (fun x => if x = c then new else [x])).flatten

/-- Fuel-driven decimal rendering (structural recursion so that concrete
values reduce inside the kernel). -/
def natDecAux : Nat → Nat → Str
  | 0, _ => []
  | fuel + 1, n =>
    if n < 10 then [Nat.digitChar n]
    else natDecAux fuel (n / 10) ++ [Nat.digitChar (n % 10)]

/-- Decimal rendering of a natural number, as Python `str(n)` produces it. -/
def natDec (n : Nat) : Str :=
  natDecAux (n + 1) n

/-- Python format spec `{n:0>2}`: pad the decimal rendering with `'0'` on
the left up to width two. -/
def pad2 (n : Nat) : Str :=
  let s := natDec n
  if s.length < 2 then '0' :: s else s

/-- Python truthiness-based `a or b` on optional strings (`None` and the
empty string are falsy). -/
def pyOr (a b : Option Str) : Option Str :=
  match a with
  | some s => if s.isEmpty then b else some s
  | none => b

/-- Python walrus-test `if v := row.get(k):` — a present but empty string is
falsy, so it behaves like an absent value. -/
def truthyOpt (o : Option Str) : Option Str :=
  match o with
  | some s => if s.isEmpty then none else some s
  | none => none

/-- Function `migrate_mastodon_handle` from `main.py` (lines 383–391).  Returns
`none` where the Python function returns `None` (after reporting the
invalid value). -/
def migrate_mastodon_handle (handle : Str) : Option Str :=
  if ('@' :: []).isPrefixOf handle then
    match splitOnChar '@' (handle.drop 1) with
    | [username, domain] =>
      some ("https://".toList ++ domain ++ "/@".toList ++ username)
    | _ => none
  else some handle

/-! ### Date-times

`dateutil.parser.parse(...).astimezone(CONFERENCE_TZ)` is an external
collaborator; pipeline functions receive a `parseDT : Str → DT` parameter
producing a wall-clock date-time already converted to the conference time
zone (`America/Chicago`). -/

/-- A wall-clock date-time in the conference time zone. -/
structure DT where
  year : Nat
  month : Nat
  day : Nat
  hour : Nat
  minute : Nat
  second : Nat
deriving DecidableEq, Repr

def isLeap (y : Nat) : Bool :=
  y % 4 = 0 && (y % 100 != 0 || y % 400 = 0)

def daysInMonth (y m : Nat) : Nat :=
  if m = 2 then (if isLeap y then 29 else 28)
  else if m = 4 ∨ m = 6 ∨ m = 9 ∨ m = 11 then 30
  else 31

def nextDay (y m d : Nat) : Nat × Nat × Nat :=
  if d < daysInMonth y m then (y, m, d + 1)
  else if m < 12 then (y, m + 1, 1)
  else (y + 1, 1, 1)

/-- Constant `TUTORIAL_LENGTH_OVERRIDE = relativedelta(hours=3, minutes=30)`
(`main.py` line 26), in minutes. -/
def TUTORIAL_LENGTH_OVERRIDE : Nat := 210

/-- The addition `start_date + TUTORIAL_LENGTH_OVERRIDE` (`main.py` line 337):
wall-clock addition of 3 h 30 min, carrying into the next day when the
result passes midnight. -/
def addTutorialOverride (dt : DT) : DT :=
  let t := dt.hour * 60 + dt.minute + TUTORIAL_LENGTH_OVERRIDE
  if t < 24 * 60 then
    { dt with hour := t / 60, minute := t % 60 }
  else
    let ymd := nextDay dt.year dt.month dt.day
    { year := ymd.1, month := ymd.2.1, day := ymd.2.2,
      hour := (t - 24 * 60) / 60, minute := t % 60, second := dt.second }

/-! ### Metadata values and frontmatter documents -/

/-- The `Social` model from `main.py` (lines 41–53), all fields optional. -/
structure Social where
  github : Option Str
  website : Option Str
  mastodon : Option Str
  twitter : Option Str
  bluesky : Option Str
  instagram : Option Str
deriving DecidableEq, Repr

/-- A metadata value as it appears in a frontmatter mapping after
`model_dump`: a string, null, boolean, list of strings, nested social
mapping, or date-time. -/
inductive Val where
  | vstr (s : Str)
  | vnull
  | vbool (b : Bool)
  | vlist (xs : List Str)
  | vsocial (s : Social)
  | vdt (d : DT)
deriving DecidableEq, Repr

/-- Serialize an optional string field the way `model_dump` does
(`None` becomes null). -/
def voptStr : Option Str → Val
  | some s => .vstr s
  | none => .vnull

def voptList : Option (List Str) → Val
  | some xs => .vlist xs
  | none => .vnull

def voptDT : Option DT → Val
  | some d => .vdt d
  | none => .vnull

/-- A parsed frontmatter document: metadata mapping plus free-text body
(the result of `frontmatter.loads`). -/
structure FM where
  metadata : List (Str × Val)
  body : Str
deriving DecidableEq, Repr

/-- First-match association lookup (Python `dict[k]` / `dict.get(k)` on the
unique-key mappings used here). -/
def alookup {α : Type} (m : List (Str × α)) (k : Str) : Option α :=
  (m.find? (fun p => p.1 = k)).map (fun p => p.2)

/-- Assignment `d[k] = v` on a Python dict modelled as a unique-key association list:
replace in place if the key is present, else append. -/
def dictSet (m : List (Str × Val)) (k : Str) (v : Val) : List (Str × Val) :=
  if m.any (fun p => p.1 = k) then
    m.map (fun p => if p.1 = k then (k, v) else p)
  else m ++ [(k, v)]

/-- Python `dict.update`: set every key of `upd` in `m`, left to right. -/
def dictUpdate (m upd : List (Str × Val)) : List (Str × Val) :=
  upd.foldl (fun acc p => dictSet acc p.1 p.2) m

/-- The `Social(...)` constructor (`main.py` lines 49–53): store the
keyword arguments, then, when the mastodon value is truthy and starts with
`"@"`, replace it by `migrate_mastodon_handle`'s result. -/
def mkSocial (github website mastodon twitter bluesky instagram : Option Str) :
    Social :=
  let m :=
    match mastodon with
    | some h =>
      if ¬h.isEmpty ∧ ('@' :: []).isPrefixOf h then migrate_mastodon_handle h
      else some h
    | none => none
  ⟨github, website, m, twitter, bluesky, instagram⟩

/-- The post-construction adjustments in `presenters` (`main.py` lines
259–266): strip a leading `"@"` from a truthy twitter handle, and re-apply
`migrate_mastodon_handle` to a truthy mastodon value. -/
def socialFinal (s : Social) : Social :=
  let tw :=
    match s.twitter with
    | some t =>
      if ¬t.isEmpty ∧ ('@' :: []).isPrefixOf t then some (t.drop 1) else some t
    | none => none
  let ms :=
    match s.mastodon with
    | some m => if ¬m.isEmpty then migrate_mastodon_handle m else some m
    | none => none
  { s with twitter := tw, mastodon := ms }

/-- The `Presenter` pydantic model (`main.py` lines 85–100).  Fields the
`presenters` command never passes to the constructor keep their `None`
defaults and are never marked as set. -/
structure Presenter where
  permalink : Option Str
  redirect_from : Option (List Str) := none
  redirect_to : Option Str := none
  sitemap : Option Bool := none
  title : Option Str := none
  company : Option Str
  hidden : Bool
  name : Str
  override_schedule_title : Option Str := none
  pronouns : Option Str := none
  photo : Option Str
  role : Option Str := none
  social : Social
deriving DecidableEq, Repr

/-- The dump `data.model_dump(exclude_unset=True)` for the `Presenter` built in the
`presenters` command (`main.py` lines 212–227): exactly the fields passed
to the constructor are marked as set (later attribute assignments at lines
257, 259–266 touch fields that were already set), in pydantic field order.
Fields never assigned (`title`, `pronouns`, `role`, …) are excluded. -/
def presenterDump (p : Presenter) : List (Str × Val) :=
  [("permalink".toList, voptStr p.permalink),
   ("company".toList, voptStr p.company),
   ("hidden".toList, .vbool p.hidden),
   ("name".toList, .vstr p.name),
   ("photo".toList, voptStr p.photo),
   ("social".toList, .vsocial p.social)]

/-- The `Schedule` pydantic model (`main.py` lines 103–127).  Fields the
`main` command never passes to the constructor keep their defaults and are
never marked as set. -/
structure Schedule where
  permalink : Option Str
  redirect_from : Option (List Str) := none
  redirect_to : Option Str := none
  title : Option Str
  category : Str
  difficulty : Option Str := some "All".toList
  end_datetime : Option DT
  sitemap : Bool := true
  image : Option Str := none
  presenter_slugs : Option (List Str)
  room : Option Str
  show_video_urls : Option Bool := none
  slides_url : Option Str := none
  datetime : Option DT
  tags : Option (List Str)
  track : Option Str
  video_url : Option Str := none
deriving DecidableEq, Repr

/-- The dump `data.model_dump(exclude_unset=True)` for the `Schedule` built in the
`main` command (`main.py` lines 340–353): exactly the nine constructor
keyword arguments are marked as set.  Defaults like `difficulty` and
`sitemap` are excluded. -/
def scheduleDump (s : Schedule) : List (Str × Val) :=
  [("permalink".toList, voptStr s.permalink),
   ("title".toList, voptStr s.title),
   ("category".toList, .vstr s.category),
   ("end_datetime".toList, voptDT s.end_datetime),
   ("presenter_slugs".toList, voptList s.presenter_slugs),
   ("room".toList, voptStr s.room),
   ("datetime".toList, voptDT s.datetime),
   ("tags".toList, voptList s.tags),
   ("track".toList, voptStr s.track)]

/-- Table `TRACKS` (`main.py` lines 146–156). -/
def TRACKS : List (Str × Str) :=
  [("Room A".toList, "t0".toList),
   ("Room B".toList, "t1".toList),
   ("Online talks".toList, "t2".toList),
   ("Tutorial Track A".toList, "t0".toList),
   ("Tutorial Track B".toList, "t1".toList),
   ("Tutorial Track C".toList, "t2".toList)]

/-- Table `TALK_FORMATS` (`main.py` lines 158–162). -/
def TALK_FORMATS : List (Str × Str) :=
  [("25-minute talks".toList, "talks".toList),
   ("45-minute talks".toList, "talks".toList),
   ("Tutorials".toList, "tutorials".toList)]

/-- The synthesized name `f"Anonymous speaker {n}"` (`main.py` line 211). -/
def anonName (n : Nat) : Str :=
  "Anonymous speaker ".toList ++ natDec n

/-! ### The `presenters` command (`main.py` lines 168–286)

Per-record processing is a total function; the outer
`except ValidationError / except Exception` handlers (lines 280–286), which
print the offending row and continue, are modelled by returning a result
whose `errorReport` carries the row instead of a document. -/

/-- Outcome of `requests.get` followed by `raise_for_status`
(`main.py` lines 231–232): either a connection/HTTP failure, or a success
carrying the response `Content-Type` header. -/
inductive FetchResult where
  | failure
  | success (contentType : Str)
deriving DecidableEq, Repr

/-- A presenter export row.  A missing `"Name"` is modelled as the empty
string (Python treats `None` and `""` alike in every `if not name` test
here); the other optional columns keep the absent/present distinction. -/
structure PRow where
  name : Str
  biography : Str
  picture : Option Str
  organization : Option Str
  url : Option Str
  mastodon : Option Str
  twitter : Option Str
  github : Option Str
  instagram : Option Str
  bluesky : Option Str
deriving DecidableEq, Repr

/-- What the photo-fetch block (`main.py` lines 228–257) produced:
the final photo value, image files written, URLs passed to
`requests.get`, and whether a download error was reported. -/
structure FetchOut where
  photo : Option Str
  assetWrites : List Str
  fetched : List Str
  failReported : Bool
deriving DecidableEq, Repr

/-- The photo-fetch block (`main.py` lines 228–257).  `Except.error`
carries the URLs fetched before the `ValueError` for an unsupported
content type was raised (line 251). -/
def fetchPhoto (slug : Str → Str) (http : Str → FetchResult) (hasOut : Bool)
    (name : Str) (photo : Option Str) : Except (List Str) FetchOut :=
  match photo with
  | some p =>
    if hasOut ∧ ¬p.isEmpty ∧ "http".toList.isPrefixOf p then
      match http p with
      | .failure => .ok ⟨some p, [], [p], true⟩
      | .success contentType =>
        -- NOTE: line 239 tests membership of the string "." in the LIST
        -- returned by rsplit, not in its last element.
        if (rsplit1 '/' p).contains ('.' :: []) then
          let filename := slug name ++ '.' :: (rsplit1 '.' p).getLastD []
          .ok ⟨some filename, [filename], [p], false⟩
        else if "image/".toList.isPrefixOf contentType ∧
            ¬contentType.contains '+' then
          let filename := slug name ++ '.' :: (rsplit1 '/' contentType).getLastD []
          .ok ⟨some filename, [filename], [p], false⟩
        else .error [p]
    else .ok ⟨some p, [], [], false⟩
  | none => .ok ⟨none, [], [], false⟩

/-- Result of processing one presenter row. -/
structure PResult where
  /-- The derived presenter name (after anonymous-name synthesis). -/
  name : Str
  /-- The parsed biography frontmatter document. -/
  post : FM
  /-- The validated `Presenter` model, when construction completed. -/
  pdata : Option Presenter
  /-- The assembled output document, when the record succeeded. -/
  doc : Option FM
  /-- The markdown write `(filename, document)`, when persisted. -/
  mdWrite : Option (Str × FM)
  /-- Image asset filenames written. -/
  assetWrites : List Str
  /-- URLs passed to `requests.get`. -/
  fetched : List Str
  /-- Whether a download failure was reported (lines 233–237). -/
  fetchFailReported : Bool
  /-- The raw row, when the record hit the outer exception handlers. -/
  errorReport : Option PRow
deriving DecidableEq, Repr

/-- Processing of one presenter row (`main.py` lines 192–286), threading the
anonymous-speaker counter. -/
def presenterStep (slug : Str → Str) (fmParse : Str → FM)
    (http : Str → FetchResult) (hasOut : Bool) (dirFiles : List Str)
    (ctr : Nat) (row : PRow) : Nat × PResult :=
  -- lines 196–203: local-file precedence via presenter_path.glob(f"{slug}.*")
  let defaultPic : Option Str :=
    if hasOut then
      ((dirFiles.filter (fun f => (slug row.name ++ ['.']).isPrefixOf f)).find?
        (fun f => ¬".md".toList.isSuffixOf f))
    else none
  -- lines 205–208: parse the biography with trailing whitespace stripped
  let post := fmParse (rstripLines row.biography)
  -- lines 209–211: anonymous-name synthesis
  let name := if row.name.isEmpty then anonName ctr else row.name
  let ctr' := if row.name.isEmpty then ctr + 1 else ctr
  -- lines 212–227: Presenter construction
  let social0 := mkSocial row.github row.url row.mastodon row.twitter
    row.bluesky row.instagram
  let photo0 := pyOr defaultPic row.picture
  match fetchPhoto slug http hasOut name photo0 with
  | .error fetched =>
    -- the ValueError propagates to the handler at lines 284–286
    (ctr', { name, post, pdata := none, doc := none, mdWrite := none,
             assetWrites := [], fetched, fetchFailReported := false,
             errorReport := some row })
  | .ok fo =>
    let data : Presenter :=
      { permalink := some ("/presenters/".toList ++ slug name ++ ['/']),
        company := some (row.organization.getD []),
        hidden := false,
        name := name,
        photo := fo.photo,
        social := socialFinal social0 }
    -- line 268: post.metadata.update(data.model_dump(exclude_unset=True))
    let doc : FM := ⟨dictUpdate post.metadata (presenterDump data), post.body⟩
    let mdWrite := if hasOut then some (slug data.name ++ ".md".toList, doc)
      else none
    (ctr', { name, post, pdata := some data, doc := some doc, mdWrite,
             assetWrites := fo.assetWrites, fetched := fo.fetched,
             fetchFailReported := fo.failReported, errorReport := none })

/-- The per-row loop of the `presenters` command: every row yields a
result, and the counter threads through in input order. -/
def runPresenters (slug : Str → Str) (fmParse : Str → FM)
    (http : Str → FetchResult) (hasOut : Bool) (dirFiles : List Str)
    (ctr : Nat) : List PRow → List PResult
  | [] => []
  | row :: rows =>
    let step := presenterStep slug fmParse http hasOut dirFiles ctr row
    step.2 :: runPresenters slug fmParse http hasOut dirFiles step.1 rows

/-! ### The `main` (schedule) command (`main.py` lines 289–380)

The handlers at lines 372–380 print the offending row and then `raise`,
so a failing record aborts the whole batch: `runSchedule` returns the
documents produced before the failure and the reported row. -/

/-- A session export row.  Fields accessed with mandatory `row[...]`
indexing before the `try` block are modelled as present. -/
structure SRow where
  proposalState : Str
  sessionType : Str
  title : Str
  description : Str
  start : Option Str
  ending : Option Str
  room : Str
  tags : Option (List Str)
  speakerNames : List Str
deriving DecidableEq, Repr

/-- Result of successfully processing one accepted/confirmed session row. -/
structure SDoc where
  /-- The parsed description frontmatter document. -/
  post : FM
  /-- The validated `Schedule` model. -/
  sdata : Schedule
  /-- The assembled output document. -/
  doc : FM
  /-- The output filename, when an output folder is configured. -/
  write : Option Str
deriving DecidableEq, Repr

/-- The output filename for a schedule document (`main.py` lines 365–366):
`{year}-{month:0>2}-{day:0>2}-{hour:0>2}-{minute:0>2}-{track}-{slug(title)}.md`. -/
def schedFilename (slug : Str → Str) (dt : DT) (track : Str) (title : Str) :
    Str :=
  natDec dt.year ++ '-' :: pad2 dt.month ++ '-' :: pad2 dt.day ++
    '-' :: pad2 dt.hour ++ '-' :: pad2 dt.minute ++ '-' :: track ++
    '-' :: slug title ++ ".md".toList

/-- Processing of one session row (`main.py` lines 323–380).
`none`: the row was skipped by the proposal-state filter (line 325).
`some (.ok d)`: a document was produced.
`some (.error r)`: an exception inside the `try` block was caught, the row
printed, and the exception re-raised (lines 372–380). -/
def processSRow (slug : Str → Str) (parseDT : Str → DT) (fmParse : Str → FM)
    (hasOut : Bool) (row : SRow) : Option (Except SRow SDoc) :=
  if row.proposalState = "accepted".toList ∨
      row.proposalState = "confirmed".toList then some (
    let talkTitleSlug := slug row.title
    let post := fmParse row.description
    -- lines 330–335: walrus-guarded parsing of Start/End
    let startDate := (truthyOpt row.start).map parseDT
    let endDate0 := (truthyOpt row.ending).map parseDT
    -- lines 336–337: tutorial length override
    let endDate :=
      if startDate.isSome ∧ alookup TALK_FORMATS row.sessionType =
          some "tutorials".toList then
        startDate.map addTutorialOverride
      else endDate0
    -- line 341: TALK_FORMATS[talk_format] raises KeyError when absent
    match alookup TALK_FORMATS row.sessionType with
    | none => .error row
    | some category =>
      let data : Schedule :=
        { category := category,
          permalink := some ('/' :: category ++ '/' :: talkTitleSlug ++ ['/']),
          tags := row.tags,
          title := some (replaceChar '>' "&gt;".toList
            (replaceChar '<' "&lt;".toList row.title)),
          presenter_slugs := some (row.speakerNames.map slug),
          room := some row.room,
          track := some ((alookup TRACKS row.room).getD "t0".toList),
          datetime := startDate,
          end_datetime := endDate }
      -- line 355: post.metadata.update(data.model_dump(exclude_unset=True))
      let doc : FM := ⟨dictUpdate post.metadata (scheduleDump data), post.body⟩
      if hasOut then
        -- lines 357–368: data.datetime.year on None raises AttributeError
        match startDate with
        | none => .error row
        | some dt =>
          .ok ⟨post, data, doc,
            some (schedFilename slug dt ((alookup TRACKS row.room).getD
              "t0".toList) (data.title.getD []))⟩
      else .ok ⟨post, data, doc, none⟩)
  else none

/-- The per-row loop of the `main` command: a caught-and-re-raised
exception aborts the batch, discarding nothing already written but
processing no further rows. -/
def runSchedule (slug : Str → Str) (parseDT : Str → DT) (fmParse : Str → FM)
    (hasOut : Bool) : List SRow → List SDoc × Option SRow
  | [] => ([], none)
  | row :: rows =>
    match processSRow slug parseDT fmParse hasOut row with
    | none => runSchedule slug parseDT fmParse hasOut rows
    | some (.ok d) =>
      let rest := runSchedule slug parseDT fmParse hasOut rows
      (d :: rest.1, rest.2)
    | some (.error r) => ([], some r)

/-- Reads a decimal digit string back into a number; used only to prove
that `natDec` is injective. -/
def decVal (s : Str) : Nat :=
  s.foldl (fun acc c => acc * 10 + (c.toNat - 48)) 0

/-- Number of anonymous records among the first `i` rows. -/
def anonBefore (rows : List PRow) (i : Nat) : Nat :=
  (rows.take i).countP (fun r => r.name.isEmpty)

/-! ### Concrete instantiations of the external collaborators, used to
evaluate the pipeline on explicit inputs -/

/-- A trivially executable slug function (inputs below are pre-slugged). -/
def idSlug : Str → Str := fun s => s

/-- A frontmatter parser mapping a blob to an empty metadata block plus the
blob as body. -/
def constFM : Str → FM := fun s => ⟨[], s⟩

/-- An HTTP client answering every request with `Content-Type: image/png`. -/
def httpPng : Str → FetchResult := fun _ => .success "image/png".toList

/-- An HTTP client answering every request with
`Content-Type: image/svg+xml`. -/
def httpSvg : Str → FetchResult := fun _ => .success "image/svg+xml".toList

/-- A date parser sending the start string `"S"` to 2024-05-01 09:00:00 and
everything else (e.g. the raw end string) to 2024-05-01 17:00:00,
conference time. -/
def pdtW : Str → DT := fun s =>
  if s = "S".toList then ⟨2024, 5, 1, 9, 0, 0⟩ else ⟨2024, 5, 1, 17, 0, 0⟩

/-- A presenter row with an externally hosted photo URL whose path has the
suffix `.jpg`. -/
def prowJane : PRow :=
  { name := "jane-doe".toList, biography := [],
    picture := some "http://example.com/pic.jpg".toList,
    organization := none, url := none, mastodon := none, twitter := none,
    github := none, instagram := none, bluesky := none }

/-- A nameless presenter row. -/
def prowAnon : PRow :=
  { name := [], biography := [], picture := none, organization := none,
    url := none, mastodon := none, twitter := none, github := none,
    instagram := none, bluesky := none }

/-- A named presenter row. -/
def prowNamed : PRow :=
  { name := "sam-roe".toList, biography := [], picture := none,
    organization := none, url := none, mastodon := none, twitter := none,
    github := none, instagram := none, bluesky := none }

/-- An accepted session row whose session type is missing from
`TALK_FORMATS`, making the `Schedule` construction raise. -/
def srowBad : SRow :=
  { proposalState := "accepted".toList, sessionType := "Workshops".toList,
    title := "Broken".toList, description := [], start := some "S".toList,
    ending := none, room := "Room A".toList, tags := none,
    speakerNames := [] }

/-- A well-formed accepted talk row. -/
def srowTalk : SRow :=
  { proposalState := "accepted".toList,
    sessionType := "25-minute talks".toList, title := "a-talk".toList,
    description := [], start := some "S".toList, ending := none,
    room := "Room B".toList, tags := none, speakerNames := [] }

/-- A well-formed confirmed tutorial row carrying a raw end value. -/
def srowTut : SRow :=
  { proposalState := "confirmed".toList, sessionType := "Tutorials".toList,
    title := "a-tutorial".toList, description := [],
    start := some "S".toList, ending := some "E".toList,
    room := "Tutorial Track B".toList, tags := none, speakerNames := [] }

/-- A submitted session row. -/
def srowSubmitted : SRow :=
  { srowTalk with proposalState := "submitted".toList }

/-- Placeholder schedule document (never reached on the concrete witness
inputs below). -/
def fallbackSDoc : SDoc :=
  ⟨⟨[], []⟩,
   { permalink := none, title := none, category := [], end_datetime := none,
     presenter_slugs := none, room := none, datetime := none, tags := none,
     track := none },
   ⟨[], []⟩, none⟩

/-- The schedule document the pipeline produces for `srowTut`. -/
def sdTutW : SDoc :=
  match processSRow idSlug pdtW constFM true srowTut with
  | some (.ok sd) => sd
  | _ => fallbackSDoc

/-- A rejected session row. -/
def srowRejected : SRow :=
  { srowTalk with proposalState := "rejected".toList }

/-! ### Helper lemmas -/

theorem natDecAux_congr :
    ∀ (m fuel fuel' : Nat), m < fuel → m < fuel' →
      natDecAux fuel m = natDecAux fuel' m := by
  intro m
  induction m using Nat.strong_induction_on with
  | _ m ih =>
    intro fuel fuel' hf hf'
    cases fuel with
    | zero => omega
    | succ f =>
      cases fuel' with
      | zero => omega
      | succ f' =>
        simp only [natDecAux]
        by_cases h10 : m < 10
        · simp [h10]
        · have hm : m / 10 < m := Nat.div_lt_self (by omega) (by omega)
          rw [if_neg h10, if_neg h10,
            ih (m / 10) hm f f' (by omega) (by omega)]

theorem natDec_lt10 (n : Nat) (h : n < 10) : natDec n = [Nat.digitChar n] := by
  simp [natDec, natDecAux, h]

theorem natDec_ge10 (n : Nat) (h : ¬n < 10) :
    natDec n = natDec (n / 10) ++ [Nat.digitChar (n % 10)] := by
  have hm : n / 10 < n := Nat.div_lt_self (by omega) (by omega)
  show natDecAux (n + 1) n = natDecAux (n / 10 + 1) (n / 10) ++
    [Nat.digitChar (n % 10)]
  rw [show natDecAux (n + 1) n = if n < 10 then [Nat.digitChar n]
        else natDecAux n (n / 10) ++ [Nat.digitChar (n % 10)] from rfl,
    if_neg h, natDecAux_congr (n / 10) n (n / 10 + 1) (by omega) (by omega)]

theorem natDec_ne_nil (n : Nat) : natDec n ≠ [] := by
  by_cases h : n < 10
  · rw [natDec_lt10 n h]; simp
  · rw [natDec_ge10 n h]; simp

theorem digitChar_toNat (d : Nat) (h : d < 10) :
    (Nat.digitChar d).toNat - 48 = d := by
  interval_cases d <;> decide

theorem decVal_natDec (n : Nat) : decVal (natDec n) = n := by
  induction n using Nat.strong_induction_on with
  | _ n ih =>
    by_cases h : n < 10
    · rw [natDec_lt10 n h]
      simp [decVal, digitChar_toNat n h]
    · rw [natDec_ge10 n h]
      have hd : n / 10 < n := Nat.div_lt_self (by omega) (by omega)
      have := ih (n / 10) hd
      simp only [decVal, List.foldl_append, List.foldl_cons, List.foldl_nil]
      simp only [decVal] at this
      rw [this, digitChar_toNat (n % 10) (Nat.mod_lt n (by omega))]
      omega

theorem natDec_injective : Function.Injective natDec := by
  intro a b h
  have := congrArg decVal h
  rwa [decVal_natDec, decVal_natDec] at this

theorem anonName_injective : Function.Injective anonName := by
  intro a b h
  exact natDec_injective (List.append_cancel_left h)

theorem splitOnChar_of_not_mem {c : Char} {u : Str} (h : c ∉ u) :
    splitOnChar c u = [u] := by
  induction u with
  | nil => rfl
  | cons x xs ih =>
    simp only [List.mem_cons, not_or] at h
    simp only [splitOnChar, ih h.2]
    rw [if_neg (fun hx => h.1 hx.symm)]

theorem splitOnChar_append {c : Char} {v : Str} (u : Str) (h : c ∉ u) :
    splitOnChar c (u ++ c :: v) = u :: splitOnChar c v := by
  induction u with
  | nil => simp [splitOnChar]
  | cons x xs ih =>
    simp only [List.mem_cons, not_or] at h
    simp only [List.cons_append, splitOnChar]
    rw [if_neg (fun hx => h.1 hx.symm)]
    rw [show xs.append (c :: v) = xs ++ c :: v from rfl, ih h.2]

theorem alookup_nil {α : Type} (k : Str) : alookup ([] : List (Str × α)) k = none :=
  rfl

theorem alookup_cons {α : Type} (p : Str × α) (m : List (Str × α)) (k : Str) :
    alookup (p :: m) k = if p.1 = k then some p.2 else alookup m k := by
  simp only [alookup, List.find?]
  by_cases h : p.1 = k
  · simp [h]
  · simp [h]

theorem alookup_eq_none_of_not_mem {α : Type} {m : List (Str × α)} {k : Str}
    (h : k ∉ m.map Prod.fst) : alookup m k = none := by
  induction m with
  | nil => rfl
  | cons p ps ih =>
    simp only [List.map_cons, List.mem_cons, not_or] at h
    rw [alookup_cons, if_neg (fun hp => h.1 hp.symm), ih h.2]

theorem alookup_replaceMap (m : List (Str × Val)) (k : Str) (v : Val) (k' : Str) :
    alookup (m.map (fun p => if p.1 = k then (k, v) else p)) k' =
      if k' = k then (if m.any (fun p => p.1 = k) then some v else none)
      else alookup m k' := by
  induction m with
  | nil =>
    by_cases h : k' = k <;> simp [h, alookup_nil]
  | cons p ps ih =>
    by_cases hp : p.1 = k
    · simp only [List.map_cons, if_pos hp]
      by_cases hk : k' = k
      · simp [alookup_cons, hk, hp]
      · have h1 : ¬k = k' := fun h => hk h.symm
        have h2 : ¬p.1 = k' := fun h => hk (h.symm.trans hp)
        simp only [alookup_cons, if_neg h1, if_neg h2, ih, if_neg hk]
    · simp only [List.map_cons, if_neg hp]
      by_cases hpk : p.1 = k'
      · have hk : ¬k' = k := fun h => hp (hpk.trans h)
        simp [alookup_cons, hpk, hk]
      · simp only [alookup_cons, if_neg hpk, ih, List.any_cons,
          decide_eq_false hp, Bool.false_or]

theorem alookup_append {α : Type} (m m' : List (Str × α)) (k : Str) :
    alookup (m ++ m') k = (alookup m k).orElse (fun _ => alookup m' k) := by
  simp only [alookup, List.find?_append]
  cases m.find? (fun p => p.1 = k) <;> simp [Option.orElse]

theorem alookup_eq_none_of_not_any {α : Type} {m : List (Str × α)} {k : Str}
    (h : ¬m.any (fun p => p.1 = k)) : alookup m k = none := by
  apply alookup_eq_none_of_not_mem
  intro hk
  apply h
  rw [List.any_eq_true]
  rcases List.mem_map.mp hk with ⟨p, hp, hfst⟩
  exact ⟨p, hp, by simp [hfst]⟩

theorem alookup_dictSet (m : List (Str × Val)) (k : Str) (v : Val) (k' : Str) :
    alookup (dictSet m k v) k' = if k' = k then some v else alookup m k' := by
  by_cases hany : m.any (fun p => p.1 = k)
  · rw [dictSet, if_pos hany, alookup_replaceMap, if_pos hany]
  · rw [dictSet, if_neg hany, alookup_append]
    by_cases hk : k' = k
    · rw [if_pos hk, hk, alookup_eq_none_of_not_any hany]
      simp [alookup_cons, Option.orElse]
    · rw [if_neg hk, alookup_cons, if_neg (fun h : k = k' => hk h.symm),
        alookup_nil]
      cases alookup m k' <;> simp [Option.orElse]

theorem alookup_dictUpdate (m upd : List (Str × Val)) (k : Str)
    (h : (upd.map Prod.fst).Nodup) :
    alookup (dictUpdate m upd) k =
      (alookup upd k).orElse (fun _ => alookup m k) := by
  induction upd generalizing m with
  | nil =>
    simp [dictUpdate, alookup_nil, Option.orElse]
  | cons u us ih =>
    simp only [List.map_cons, List.nodup_cons] at h
    have step : dictUpdate m (u :: us) = dictUpdate (dictSet m u.1 u.2) us := rfl
    rw [step, ih _ h.2, alookup_dictSet, alookup_cons]
    by_cases hk : u.1 = k
    · have : alookup us k = none :=
        alookup_eq_none_of_not_mem (fun hm => h.1 (hk ▸ hm))
      simp [hk, this, Option.orElse]
    · simp only [if_neg hk, if_neg (fun h' : k = u.1 => hk h'.symm)]

theorem pad2_of_lt10 (n : Nat) (h : n < 10) :
    pad2 n = ['0', Nat.digitChar n] := by
  simp [pad2, natDec_lt10 n h]

theorem two_le_pad2_length (n : Nat) : 2 ≤ (pad2 n).length := by
  have h1 : 1 ≤ (natDec n).length := List.length_pos.mpr (natDec_ne_nil n)
  simp only [pad2]
  split
  · simp only [List.length_cons]
    omega
  · next h => omega

theorem presenterStep_name (slug : Str → Str) (fmParse : Str → FM)
    (http : Str → FetchResult) (hasOut : Bool) (dirFiles : List Str)
    (ctr : Nat) (row : PRow) :
    (presenterStep slug fmParse http hasOut dirFiles ctr row).2.name =
      if row.name.isEmpty then anonName ctr else row.name := by
  simp only [presenterStep]
  split <;> rfl

theorem presenterStep_ctr (slug : Str → Str) (fmParse : Str → FM)
    (http : Str → FetchResult) (hasOut : Bool) (dirFiles : List Str)
    (ctr : Nat) (row : PRow) :
    (presenterStep slug fmParse http hasOut dirFiles ctr row).1 =
      if row.name.isEmpty then ctr + 1 else ctr := by
  simp only [presenterStep]
  split <;> rfl

theorem runPresenters_length (slug : Str → Str) (fmParse : Str → FM)
    (http : Str → FetchResult) (hasOut : Bool) (dirFiles : List Str) :
    ∀ (rows : List PRow) (ctr : Nat),
      (runPresenters slug fmParse http hasOut dirFiles ctr rows).length =
        rows.length := by
  intro rows
  induction rows with
  | nil => intro ctr; rfl
  | cons r rs ih =>
    intro ctr
    simp only [runPresenters, List.length_cons, ih]

theorem anonBefore_zero (rows : List PRow) : anonBefore rows 0 = 0 := rfl

theorem anonBefore_cons_succ (r : PRow) (rs : List PRow) (i : Nat) :
    anonBefore (r :: rs) (i + 1) =
      (if r.name.isEmpty then 1 else 0) + anonBefore rs i := by
  simp only [anonBefore, List.take_succ_cons, List.countP_cons]
  by_cases h : r.name.isEmpty <;> simp [h, Nat.add_comm]

theorem anonBefore_succ_of_anon {rows : List PRow} {i : Nat} {ri : PRow}
    (h : rows[i]? = some ri) (ha : ri.name.isEmpty) :
    anonBefore rows (i + 1) = anonBefore rows i + 1 := by
  simp only [anonBefore, List.take_succ, h, List.countP_append]
  simp [List.countP_cons, ha]

theorem anonBefore_mono (rows : List PRow) {a b : Nat} (h : a ≤ b) :
    anonBefore rows a ≤ anonBefore rows b := by
  have : rows.take b = rows.take a ++ (rows.drop a).take (b - a) := by
    rw [← List.take_add]
    congr 1
    omega
  simp only [anonBefore, this, List.countP_append]
  omega

/-- Index-wise characterization of the names produced by the presenter
loop: row `i` receives `anonName (ctr + anonBefore rows i)` when its raw
name is empty, and keeps its raw name otherwise. -/
theorem runPresenters_name (slug : Str → Str) (fmParse : Str → FM)
    (http : Str → FetchResult) (hasOut : Bool) (dirFiles : List Str) :
    ∀ (rows : List PRow) (ctr i : Nat),
      ((runPresenters slug fmParse http hasOut dirFiles ctr rows).map
          (fun r => r.name))[i]? =
        (rows[i]?).map (fun row =>
          if row.name.isEmpty then anonName (ctr + anonBefore rows i)
          else row.name) := by
  intro rows
  induction rows with
  | nil => intro ctr i; simp [runPresenters]
  | cons r rs ih =>
    intro ctr i
    cases i with
    | zero =>
      simp only [runPresenters, List.map_cons, List.getElem?_cons_zero,
        Option.map_some', presenterStep_name, anonBefore_zero, Nat.add_zero]
    | succ i =>
      simp only [runPresenters, List.map_cons, List.getElem?_cons_succ,
        presenterStep_ctr, ih, anonBefore_cons_succ]
      by_cases hr : r.name.isEmpty
      · simp only [if_pos hr]
        have : ctr + 1 + anonBefore rs i = ctr + (1 + anonBefore rs i) := by
          omega
        rw [this]
      · simp only [if_neg hr, Nat.zero_add]

theorem cons_of_isPrefixOf {c : Char} {l : Str}
    (h : (c :: []).isPrefixOf l = true) : ∃ t, l = c :: t := by
  cases l with
  | nil => simp [List.isPrefixOf] at h
  | cons b t =>
    simp only [List.isPrefixOf, List.isPrefixOf_nil_left, Bool.and_true,
      beq_iff_eq] at h
    exact ⟨t, by rw [h]⟩

theorem isPrefixOf_append_self (l x : Str) : l.isPrefixOf (l ++ x) = true := by
  induction l with
  | nil => simp [List.isPrefixOf]
  | cons a as ih => simp [List.isPrefixOf, ih]

theorem presenterDump_keys (p : Presenter) :
    (presenterDump p).map Prod.fst =
      ["permalink".toList, "company".toList, "hidden".toList,
       "name".toList, "photo".toList, "social".toList] := rfl

theorem presenterDump_keys_nodup (p : Presenter) :
    ((presenterDump p).map Prod.fst).Nodup := by
  rw [presenterDump_keys]
  decide

theorem scheduleDump_keys (s : Schedule) :
    (scheduleDump s).map Prod.fst =
      ["permalink".toList, "title".toList, "category".toList,
       "end_datetime".toList, "presenter_slugs".toList, "room".toList,
       "datetime".toList, "tags".toList, "track".toList] := rfl

theorem scheduleDump_keys_nodup (s : Schedule) :
    ((scheduleDump s).map Prod.fst).Nodup := by
  rw [scheduleDump_keys]
  decide

/-! ### Claim theorems -/

/-- C5: a mastodon handle of the form `@user@domain` (exactly one `"@"`
after the leading one) normalizes to exactly `https://domain/@user`, and a
handle beginning with `"@"` that contains more than one further `"@"` is
mapped to `none` (after the invalid value is reported) rather than
truncated. -/
theorem claim_C5_mastodon_normalization (u d w : Str)
    (hu : '@' ∉ u) (hd : '@' ∉ d) :
    migrate_mastodon_handle ('@' :: (u ++ '@' :: d)) =
      some ("https://".toList ++ d ++ "/@".toList ++ u) ∧
    migrate_mastodon_handle ('@' :: (u ++ '@' :: (d ++ '@' :: w))) = none := by
  constructor
  · simp only [migrate_mastodon_handle]
    rw [if_pos (by simp [List.isPrefixOf])]
    simp only [List.drop_succ_cons, List.drop_zero]
    rw [splitOnChar_append u hu, splitOnChar_of_not_mem hd]
  · simp only [migrate_mastodon_handle]
    rw [if_pos (by simp [List.isPrefixOf])]
    simp only [List.drop_succ_cons, List.drop_zero]
    rw [splitOnChar_append u hu, splitOnChar_append d hd]
    obtain ⟨x, xs, hxx⟩ : ∃ x xs, splitOnChar '@' w = x :: xs := by
      cases h : splitOnChar '@' w with
      | nil => exact absurd h (splitOnChar_ne_nil '@' w)
      | cons x xs => exact ⟨x, xs, rfl⟩
    rw [hxx]

theorem claim_C5_mastodon_normalization_witness :
    migrate_mastodon_handle "@user@example.com".toList =
      some "https://example.com/@user".toList ∧
    migrate_mastodon_handle "@a@b@c".toList = none := by
  have h := claim_C5_mastodon_normalization "user".toList "example.com".toList
    "c".toList (by decide) (by decide)
  have h2 := claim_C5_mastodon_normalization "a".toList "b".toList []
    (by decide) (by decide)
  exact ⟨h.1, h2.2⟩

/-- C10: `migrate_mastodon_handle` leaves a handle that does not begin with
`"@"` unchanged; on a handle that begins with `"@"` every non-`none` result
begins with `https://`; and normalization is idempotent, so the second
application the pipeline performs (after the `Social` constructor already
applied it) returns the same value. -/
theorem claim_C10_mastodon_idempotent :
    (∀ h : Str, ¬(('@' :: []).isPrefixOf h = true) →
      migrate_mastodon_handle h = some h) ∧
    (∀ h r : Str, ('@' :: []).isPrefixOf h = true →
      migrate_mastodon_handle h = some r →
      "https://".toList.isPrefixOf r = true) ∧
    (∀ h r : Str, migrate_mastodon_handle h = some r →
      migrate_mastodon_handle r = some r) := by
  refine ⟨?_, ?_, ?_⟩
  · intro h hp
    simp only [migrate_mastodon_handle, if_neg hp]
  · intro h r hp hm
    obtain ⟨t, rfl⟩ := cons_of_isPrefixOf hp
    simp only [migrate_mastodon_handle, if_pos hp, List.drop_succ_cons,
      List.drop_zero] at hm
    rcases e : splitOnChar '@' t with _ | ⟨a, _ | ⟨b, l⟩⟩
    · exact absurd e (splitOnChar_ne_nil '@' t)
    · rw [e] at hm; exact absurd hm (by simp)
    · cases l with
      | nil =>
        rw [e] at hm
        simp only [Option.some.injEq] at hm
        rw [← hm]
        exact isPrefixOf_append_self _ _
      | cons c cs =>
        rw [e] at hm; exact absurd hm (by simp)
  · intro h r hm
    by_cases hp : ('@' :: []).isPrefixOf h = true
    · obtain ⟨t, rfl⟩ := cons_of_isPrefixOf hp
      simp only [migrate_mastodon_handle, if_pos hp, List.drop_succ_cons,
        List.drop_zero] at hm
      rcases e : splitOnChar '@' t with _ | ⟨a, _ | ⟨b, l⟩⟩
      · exact absurd e (splitOnChar_ne_nil '@' t)
      · rw [e] at hm; exact absurd hm (by simp)
      · cases l with
        | nil =>
          rw [e] at hm
          simp only [Option.some.injEq] at hm
          rw [← hm]
          simp [migrate_mastodon_handle, List.isPrefixOf]
        | cons c cs =>
          rw [e] at hm; exact absurd hm (by simp)
    · rw [migrate_mastodon_handle, if_neg hp] at hm
      rw [Option.some.injEq] at hm
      rw [← hm, migrate_mastodon_handle, if_neg hp]

theorem claim_C10_mastodon_idempotent_witness :
    migrate_mastodon_handle "https://example.com/@user".toList =
      some "https://example.com/@user".toList :=
  claim_C10_mastodon_idempotent.2.2 "@user@example.com".toList
    "https://example.com/@user".toList (by decide)

/-- C2: for every schedule record whose derived category is `tutorials`
and whose start timestamp is present (truthy), the emitted end timestamp is
start + 3 h 30 min, regardless of any raw `End` value (the row, including
its `ending` field, is universally quantified). -/
theorem claim_C2_tutorial_override (slug : Str → Str) (parseDT : Str → DT)
    (fmParse : Str → FM) (hasOut : Bool) (row : SRow) (sd : SDoc) (s : Str)
    (hres : processSRow slug parseDT fmParse hasOut row = some (.ok sd))
    (hcat : alookup TALK_FORMATS row.sessionType = some "tutorials".toList)
    (hstart : truthyOpt row.start = some s) :
    sd.sdata.datetime = some (parseDT s) ∧
    sd.sdata.end_datetime = some (addTutorialOverride (parseDT s)) := by
  unfold processSRow at hres
  by_cases hstate : row.proposalState = "accepted".toList ∨
      row.proposalState = "confirmed".toList
  case neg =>
    rw [if_neg hstate] at hres
    exact absurd hres (by simp)
  rw [if_pos hstate, Option.some.injEq] at hres
  simp only [hstart, hcat, Option.map_some', Option.isSome_some, true_and,
    and_self, if_true] at hres
  cases hasOut with
  | false =>
    simp only [Bool.false_eq_true, if_false, Except.ok.injEq] at hres
    subst hres
    exact ⟨rfl, rfl⟩
  | true =>
    simp only [if_true, Except.ok.injEq] at hres
    subst hres
    exact ⟨rfl, rfl⟩

theorem claim_C2_tutorial_override_witness :
    processSRow idSlug pdtW constFM true srowTut = some (.ok sdTutW) ∧
    sdTutW.sdata.datetime = some ⟨2024, 5, 1, 9, 0, 0⟩ ∧
    sdTutW.sdata.end_datetime = some ⟨2024, 5, 1, 12, 30, 0⟩ := by
  have hres : processSRow idSlug pdtW constFM true srowTut =
      some (.ok sdTutW) := by rfl
  have h := claim_C2_tutorial_override idSlug pdtW constFM true srowTut
    sdTutW "S".toList hres (by decide) (by decide)
  exact ⟨hres, h.1.trans (by decide), h.2.trans (by decide)⟩

/-- C6: every schedule document emitted with a present start timestamp is
written under a filename
`{year}-{month}-{day}-{hour}-{minute}-{track}-{slug(title)}.md` in which
month, day, hour and minute are zero-padded to (at least) two digits. -/
theorem claim_C6_filename_zero_padding (slug : Str → Str) (parseDT : Str → DT)
    (fmParse : Str → FM) (row : SRow) (sd : SDoc) (dt : DT)
    (hres : processSRow slug parseDT fmParse true row = some (.ok sd))
    (hdt : sd.sdata.datetime = some dt) :
    sd.write = some (schedFilename slug dt
      ((alookup TRACKS row.room).getD "t0".toList) (sd.sdata.title.getD [])) ∧
    schedFilename slug dt ((alookup TRACKS row.room).getD "t0".toList)
        (sd.sdata.title.getD []) =
      natDec dt.year ++ '-' :: pad2 dt.month ++ '-' :: pad2 dt.day ++
        '-' :: pad2 dt.hour ++ '-' :: pad2 dt.minute ++
        '-' :: ((alookup TRACKS row.room).getD "t0".toList) ++
        '-' :: slug (sd.sdata.title.getD []) ++ ".md".toList ∧
    (∀ n, n < 10 → pad2 n = '0' :: natDec n) ∧
    (∀ n, 2 ≤ (pad2 n).length) := by
  refine ⟨?_, rfl, ?_, two_le_pad2_length⟩
  · unfold processSRow at hres
    by_cases hstate : row.proposalState = "accepted".toList ∨
        row.proposalState = "confirmed".toList
    case neg =>
      rw [if_neg hstate] at hres
      exact absurd hres (by simp)
    rw [if_pos hstate, Option.some.injEq] at hres
    rcases hc : alookup TALK_FORMATS row.sessionType with - | cat
    · simp only [hc] at hres
      exact absurd hres (by simp)
    rcases hs : truthyOpt row.start with - | s
    · simp only [hc, hs, Option.map_none', if_true] at hres
      exact absurd hres (by simp)
    simp only [hc, hs, Option.map_some', if_true, Except.ok.injEq] at hres
    subst hres
    simp only at hdt
    rw [Option.some.injEq] at hdt
    subst hdt
    rfl
  · intro n hn
    rw [pad2_of_lt10 n hn, natDec_lt10 n hn]

theorem claim_C6_filename_zero_padding_witness :
    processSRow idSlug pdtW constFM true srowTut = some (.ok sdTutW) ∧
    sdTutW.write = some "2024-05-01-09-00-t1-a-tutorial.md".toList := by
  have hres : processSRow idSlug pdtW constFM true srowTut =
      some (.ok sdTutW) := by rfl
  have hdt : sdTutW.sdata.datetime = some ⟨2024, 5, 1, 9, 0, 0⟩ := by decide
  have h := claim_C6_filename_zero_padding idSlug pdtW constFM srowTut
    sdTutW ⟨2024, 5, 1, 9, 0, 0⟩ hres hdt
  exact ⟨hres, h.1.trans (by decide)⟩

/-- C4: a schedule row produces an output document exactly when its
proposal state is `accepted` or `confirmed`.  Any other state yields no
document and no error (the batch simply continues); an accepted or
confirmed row with a known session type (and, when persisting, a present
start) yields exactly one document. -/
theorem claim_C4_state_filter (slug : Str → Str) (parseDT : Str → DT)
    (fmParse : Str → FM) (hasOut : Bool) (row : SRow) :
    (¬(row.proposalState = "accepted".toList ∨
        row.proposalState = "confirmed".toList) →
      processSRow slug parseDT fmParse hasOut row = none ∧
      ∀ rest, runSchedule slug parseDT fmParse hasOut (row :: rest) =
        runSchedule slug parseDT fmParse hasOut rest) ∧
    ((row.proposalState = "accepted".toList ∨
        row.proposalState = "confirmed".toList) →
      ∀ cat, alookup TALK_FORMATS row.sessionType = some cat →
        (hasOut = true → (truthyOpt row.start).isSome = true) →
        ∃ sd, processSRow slug parseDT fmParse hasOut row = some (.ok sd)) := by
  constructor
  · intro hstate
    have h1 : processSRow slug parseDT fmParse hasOut row = none := by
      unfold processSRow
      rw [if_neg hstate]
    exact ⟨h1, fun rest => by simp only [runSchedule, h1]⟩
  · intro hstate cat hcat hstart
    unfold processSRow
    rw [if_pos hstate]
    cases hasOut with
    | true =>
      obtain ⟨s, hs⟩ := Option.isSome_iff_exists.mp (hstart rfl)
      simp only [hcat, hs, Option.map_some', if_true]
      exact ⟨_, rfl⟩
    | false =>
      simp only [hcat, Bool.false_eq_true, if_false]
      exact ⟨_, rfl⟩

theorem claim_C4_state_filter_witness :
    processSRow idSlug pdtW constFM true srowSubmitted = none ∧
    processSRow idSlug pdtW constFM true srowRejected = none ∧
    (∃ sd, processSRow idSlug pdtW constFM true srowTalk = some (.ok sd)) ∧
    (∃ sd, processSRow idSlug pdtW constFM true srowTut = some (.ok sd)) :=
  ⟨((claim_C4_state_filter idSlug pdtW constFM true srowSubmitted).1
      (by decide)).1,
   ((claim_C4_state_filter idSlug pdtW constFM true srowRejected).1
      (by decide)).1,
   (claim_C4_state_filter idSlug pdtW constFM true srowTalk).2 (by decide)
     "talks".toList (by decide) (fun _ => by decide),
   (claim_C4_state_filter idSlug pdtW constFM true srowTut).2 (by decide)
     "tutorials".toList (by decide) (fun _ => by decide)⟩

/-- C8: within one presenter run (counter starting at 0), every record
whose raw name is empty receives `Anonymous speaker {n}` where `n` counts
the anonymous records before it in input order; records with a name keep
it (and consume no counter value, since only anonymous records are
counted); and two distinct anonymous records always receive distinct
names. -/
theorem claim_C8_anonymous_counter (slug : Str → Str) (fmParse : Str → FM)
    (http : Str → FetchResult) (hasOut : Bool) (dirFiles : List Str)
    (rows : List PRow) :
    (∀ (i : Nat) (row : PRow), rows[i]? = some row → row.name.isEmpty = true →
      ((runPresenters slug fmParse http hasOut dirFiles 0 rows).map
          (fun r => r.name))[i]? = some (anonName (anonBefore rows i))) ∧
    (∀ (i : Nat) (row : PRow), rows[i]? = some row → ¬row.name.isEmpty = true →
      ((runPresenters slug fmParse http hasOut dirFiles 0 rows).map
          (fun r => r.name))[i]? = some row.name) ∧
    (∀ (i j : Nat) (ri rj : PRow), rows[i]? = some ri → rows[j]? = some rj → i ≠ j →
      ri.name.isEmpty = true → rj.name.isEmpty = true →
      anonName (anonBefore rows i) ≠ anonName (anonBefore rows j)) := by
  refine ⟨?_, ?_, ?_⟩
  · intro i row hrow hanon
    rw [runPresenters_name, hrow, Option.map_some', if_pos hanon,
      Nat.zero_add]
  · intro i row hrow hnamed
    rw [runPresenters_name, hrow, Option.map_some', if_neg hnamed]
  · intro i j ri rj hri hrj hij hai haj heq
    have hb := anonName_injective heq
    rcases Nat.lt_or_ge i j with hlt | hge
    · have h2 : anonBefore rows (i + 1) = anonBefore rows i + 1 :=
        anonBefore_succ_of_anon hri hai
      have h3 : anonBefore rows (i + 1) ≤ anonBefore rows j :=
        anonBefore_mono rows (by omega)
      omega
    · have hgt : j < i := by omega
      have h2 : anonBefore rows (j + 1) = anonBefore rows j + 1 :=
        anonBefore_succ_of_anon hrj haj
      have h3 : anonBefore rows (j + 1) ≤ anonBefore rows i :=
        anonBefore_mono rows (by omega)
      omega

theorem claim_C8_anonymous_counter_witness :
    ((runPresenters idSlug constFM httpPng false [] 0
        [prowAnon, prowNamed, prowAnon]).map (fun r => r.name))[0]? =
      some "Anonymous speaker 0".toList ∧
    ((runPresenters idSlug constFM httpPng false [] 0
        [prowAnon, prowNamed, prowAnon]).map (fun r => r.name))[1]? =
      some "sam-roe".toList ∧
    ((runPresenters idSlug constFM httpPng false [] 0
        [prowAnon, prowNamed, prowAnon]).map (fun r => r.name))[2]? =
      some "Anonymous speaker 1".toList ∧
    anonName 0 ≠ anonName 1 := by
  have h := claim_C8_anonymous_counter idSlug constFM httpPng false []
    [prowAnon, prowNamed, prowAnon]
  refine ⟨?_, ?_, ?_, ?_⟩
  · exact (h.1 0 prowAnon (by decide) (by decide)).trans (by decide)
  · exact (h.2.1 1 prowNamed (by decide) (by decide)).trans (by decide)
  · exact (h.1 2 prowAnon (by decide) (by decide)).trans (by decide)
  · exact h.2.2 0 2 prowAnon prowAnon (by decide) (by decide) (by decide)
      (by decide) (by decide)

/-- Shape of a successful presenter step: the assembled document is the
parsed biography metadata updated with the model dump, over the parsed
body. -/
theorem presenterStep_shape (slug : Str → Str) (fmParse : Str → FM)
    (http : Str → FetchResult) (hasOut : Bool) (dirFiles : List Str)
    (ctr : Nat) (row : PRow) :
    ((presenterStep slug fmParse http hasOut dirFiles ctr row).2.pdata =
        none ∧
      (presenterStep slug fmParse http hasOut dirFiles ctr row).2.doc =
        none ∧
      (presenterStep slug fmParse http hasOut dirFiles ctr row).2.errorReport
        = some row) ∨
    (∃ data,
      (presenterStep slug fmParse http hasOut dirFiles ctr row).2.pdata =
        some data ∧
      (presenterStep slug fmParse http hasOut dirFiles ctr row).2.post =
        fmParse (rstripLines row.biography) ∧
      (presenterStep slug fmParse http hasOut dirFiles ctr row).2.doc =
        some ⟨dictUpdate (fmParse (rstripLines row.biography)).metadata
                (presenterDump data),
              (fmParse (rstripLines row.biography)).body⟩) := by
  simp only [presenterStep]
  split
  · exact Or.inl ⟨rfl, rfl, rfl⟩
  · exact Or.inr ⟨_, rfl, rfl, rfl⟩

/-- Shape of a successful schedule row: the assembled document is the
parsed description metadata updated with the model dump, over the parsed
body. -/
theorem processSRow_ok_shape (slug : Str → Str) (parseDT : Str → DT)
    (fmParse : Str → FM) (hasOut : Bool) (row : SRow) (sd : SDoc)
    (hres : processSRow slug parseDT fmParse hasOut row = some (.ok sd)) :
    sd.doc = ⟨dictUpdate sd.post.metadata (scheduleDump sd.sdata),
      sd.post.body⟩ := by
  unfold processSRow at hres
  by_cases hstate : row.proposalState = "accepted".toList ∨
      row.proposalState = "confirmed".toList
  case neg =>
    rw [if_neg hstate] at hres
    exact absurd hres (by simp)
  rw [if_pos hstate, Option.some.injEq] at hres
  rcases hc : alookup TALK_FORMATS row.sessionType with - | cat
  · simp only [hc] at hres
    exact absurd hres (by simp)
  cases hasOut with
  | false =>
    simp only [hc, Bool.false_eq_true, if_false, Except.ok.injEq] at hres
    subst hres
    rfl
  | true =>
    rcases hs : truthyOpt row.start with - | s
    · simp only [hc, hs, Option.map_none', if_true] at hres
      exact absurd hres (by simp)
    · simp only [hc, hs, Option.map_some', if_true, Except.ok.injEq] at hres
      subst hres
      rfl

/-- C9: the final metadata of every assembled document equals the parsed
pre-existing metadata overlaid with the dumped derived fields — a dumped
key wins over a same-named pre-existing key, a key not dumped (left unset)
keeps its pre-existing value, the dump contains exactly the
constructor-assigned fields (unset fields are excluded rather than written
as null), and the body is unchanged. -/
theorem claim_C9_metadata_merge :
    (∀ (slug : Str → Str) (fmParse : Str → FM) (http : Str → FetchResult)
        (hasOut : Bool) (dirFiles : List Str) (ctr : Nat) (row : PRow)
        (data : Presenter) (doc : FM),
      (presenterStep slug fmParse http hasOut dirFiles ctr row).2.pdata =
        some data →
      (presenterStep slug fmParse http hasOut dirFiles ctr row).2.doc =
        some doc →
      doc.body =
        (presenterStep slug fmParse http hasOut dirFiles ctr row).2.post.body
        ∧
      (∀ k, alookup doc.metadata k =
        (alookup (presenterDump data) k).orElse (fun _ =>
          alookup (presenterStep slug fmParse http hasOut dirFiles ctr
            row).2.post.metadata k)) ∧
      (presenterDump data).map Prod.fst =
        ["permalink".toList, "company".toList, "hidden".toList,
         "name".toList, "photo".toList, "social".toList]) ∧
    (∀ (slug : Str → Str) (parseDT : Str → DT) (fmParse : Str → FM)
        (hasOut : Bool) (row : SRow) (sd : SDoc),
      processSRow slug parseDT fmParse hasOut row = some (.ok sd) →
      sd.doc.body = sd.post.body ∧
      (∀ k, alookup sd.doc.metadata k =
        (alookup (scheduleDump sd.sdata) k).orElse (fun _ =>
          alookup sd.post.metadata k)) ∧
      (scheduleDump sd.sdata).map Prod.fst =
        ["permalink".toList, "title".toList, "category".toList,
         "end_datetime".toList, "presenter_slugs".toList, "room".toList,
         "datetime".toList, "tags".toList, "track".toList]) := by
  constructor
  · intro slug fmParse http hasOut dirFiles ctr row data doc hdata hdoc
    rcases presenterStep_shape slug fmParse http hasOut dirFiles ctr row with
      ⟨hn, -, -⟩ | ⟨data', hd', hpost, hdoc'⟩
    · rw [hdata] at hn
      exact absurd hn (by simp)
    · rw [hdata] at hd'
      rw [Option.some.injEq] at hd'
      subst hd'
      rw [hdoc'] at hdoc
      rw [Option.some.injEq] at hdoc
      subst hdoc
      refine ⟨by rw [hpost], ?_, rfl⟩
      intro k
      rw [hpost]
      apply alookup_dictUpdate
      have hkeys : (presenterDump data).map Prod.fst =
          ["permalink".toList, "company".toList, "hidden".toList,
           "name".toList, "photo".toList, "social".toList] := rfl
      rw [hkeys]
      decide
  · intro slug parseDT fmParse hasOut row sd hres
    have hdoc := processSRow_ok_shape slug parseDT fmParse hasOut row sd hres
    rw [hdoc]
    refine ⟨rfl, ?_, rfl⟩
    intro k
    apply alookup_dictUpdate
    have hkeys : (scheduleDump sd.sdata).map Prod.fst =
        ["permalink".toList, "title".toList, "category".toList,
         "end_datetime".toList, "presenter_slugs".toList, "room".toList,
         "datetime".toList, "tags".toList, "track".toList] := rfl
    rw [hkeys]
    decide

theorem claim_C9_metadata_merge_witness :
    (∀ k, alookup sdTutW.doc.metadata k =
      (alookup (scheduleDump sdTutW.sdata) k).orElse (fun _ =>
        alookup sdTutW.post.metadata k)) ∧
    sdTutW.doc.body = sdTutW.post.body :=
  ⟨(claim_C9_metadata_merge.2 idSlug pdtW constFM true srowTut sdTutW
      (by rfl)).2.1,
   (claim_C9_metadata_merge.2 idSlug pdtW constFM true srowTut sdTutW
      (by rfl)).1⟩

/-- C7 (counterexample to the claim as stated): with an output folder whose
presenter directory holds only `jane-doe.md`, a file whose name-stem
matches the slugged presenter name exists, yet the pipeline still performs
a network fetch for the presenter's photo URL — the glob loop skips every
`.md` file (`main.py` line 201). -/
theorem claim_C7_counterexample :
    (["jane-doe.md".toList].filter
      (fun g => (idSlug prowJane.name ++ ['.']).isPrefixOf g)) ≠ [] ∧
    (presenterStep idSlug constFM httpPng true ["jane-doe.md".toList] 0
      prowJane).2.fetched = ["http://example.com/pic.jpg".toList] := by
  constructor
  · decide
  · decide

/-- C7 (amended): local-file precedence holds for the files the glob loop
actually accepts.  If the first stem-matching file that does not end in
`.md` is `f`, and `f` does not itself begin with `http`, then no network
fetch is performed, no asset is written, and the photo field (both on the
model and in the assembled metadata) references the local asset `f`. -/
theorem claim_C7_local_photo_precedence (slug : Str → Str) (fmParse : Str → FM)
    (http : Str → FetchResult) (dirFiles : List Str) (ctr : Nat) (row : PRow)
    (f : Str)
    (hfind : (dirFiles.filter
        (fun g => (slug row.name ++ ['.']).isPrefixOf g)).find?
        (fun g => ¬".md".toList.isSuffixOf g) = some f)
    (hnothttp : ¬("http".toList.isPrefixOf f = true)) :
    (presenterStep slug fmParse http true dirFiles ctr row).2.fetched = [] ∧
    (presenterStep slug fmParse http true dirFiles ctr row).2.assetWrites =
      [] ∧
    (presenterStep slug fmParse http true dirFiles ctr row).2.pdata.map
      (fun d => d.photo) = some (some f) ∧
    (presenterStep slug fmParse http true dirFiles ctr row).2.doc.map
      (fun d => alookup d.metadata "photo".toList) =
      some (some (voptStr (some f))) := by
  have hfmem : f ∈ dirFiles.filter
      (fun g => (slug row.name ++ ['.']).isPrefixOf g) :=
    List.mem_of_find?_eq_some hfind
  have hpre : (slug row.name ++ ['.']).isPrefixOf f = true :=
    (List.mem_filter.mp hfmem).2
  have hfne : f.isEmpty = false := by
    cases f with
    | nil =>
      exfalso
      rcases hsl : slug row.name with - | ⟨a, as⟩ <;>
        rw [hsl] at hpre <;> simp [List.isPrefixOf] at hpre
    | cons a as => rfl
  refine ⟨?_, ?_, ?_, ?_⟩ <;>
    simp only [presenterStep, hfind, pyOr, fetchPhoto, hfne, hnothttp,
      Bool.false_eq_true, if_false, if_true, and_false, false_and, and_true,
      true_and]
  · rfl
  · rw [Option.map_some', Option.some.injEq]
    rw [alookup_dictUpdate _ _ _ (presenterDump_keys_nodup _)]
    rfl

theorem claim_C7_local_photo_precedence_witness :
    (presenterStep idSlug constFM httpPng true
      ["jane-doe.md".toList, "jane-doe.jpg".toList] 0 prowJane).2.fetched =
      [] ∧
    (presenterStep idSlug constFM httpPng true
      ["jane-doe.md".toList, "jane-doe.jpg".toList] 0 prowJane).2.pdata.map
      (fun d => d.photo) = some (some "jane-doe.jpg".toList) := by
  have h := claim_C7_local_photo_precedence idSlug constFM httpPng
    ["jane-doe.md".toList, "jane-doe.jpg".toList] 0 prowJane
    "jane-doe.jpg".toList (by decide) (by decide)
  exact ⟨h.1, h.2.2.1⟩

/-- C1 (counterexample to the claim as stated): in the schedule command a
record whose session type is missing from `TALK_FORMATS` is reported and
then re-raised (`main.py` lines 377–380), aborting the batch: the
well-formed record that follows it produces no document, although alone it
produces one. -/
theorem claim_C1_counterexample :
    (runSchedule idSlug pdtW constFM false [srowBad, srowTalk]).1 = [] ∧
    (runSchedule idSlug pdtW constFM false [srowBad, srowTalk]).2 =
      some srowBad ∧
    (runSchedule idSlug pdtW constFM false [srowTalk]).1.length = 1 ∧
    (runSchedule idSlug pdtW constFM false [srowTalk]).2 = none := by
  refine ⟨rfl, rfl, rfl, rfl⟩

/-- C1 (amended): in the presenters command a per-record failure is caught,
reported with the offending raw record, and processing continues — every
record of the batch yields a result.  In the schedule command a caught
failure is reported with the offending raw record and then re-raised,
aborting the batch: the remaining records are not processed. -/
theorem claim_C1_failure_semantics :
    (∀ (slug : Str → Str) (fmParse : Str → FM) (http : Str → FetchResult)
        (hasOut : Bool) (dirFiles : List Str) (ctr : Nat)
        (rows : List PRow),
      (runPresenters slug fmParse http hasOut dirFiles ctr rows).length =
        rows.length) ∧
    (∀ (slug : Str → Str) (fmParse : Str → FM) (http : Str → FetchResult)
        (hasOut : Bool) (dirFiles : List Str) (ctr : Nat) (row : PRow),
      (presenterStep slug fmParse http hasOut dirFiles ctr
          row).2.errorReport = none ∨
      (presenterStep slug fmParse http hasOut dirFiles ctr
          row).2.errorReport = some row) ∧
    (∀ (slug : Str → Str) (parseDT : Str → DT) (fmParse : Str → FM)
        (hasOut : Bool) (row r : SRow),
      processSRow slug parseDT fmParse hasOut row = some (.error r) →
      r = row) ∧
    (∀ (slug : Str → Str) (parseDT : Str → DT) (fmParse : Str → FM)
        (hasOut : Bool) (row r : SRow) (rest : List SRow),
      processSRow slug parseDT fmParse hasOut row = some (.error r) →
      runSchedule slug parseDT fmParse hasOut (row :: rest) =
        ([], some r)) := by
  refine ⟨?_, ?_, ?_, ?_⟩
  · exact fun slug fmParse http hasOut dirFiles rows ctr =>
      runPresenters_length slug fmParse http hasOut dirFiles ctr rows
  · intro slug fmParse http hasOut dirFiles ctr row
    simp only [presenterStep]
    split
    · exact Or.inr rfl
    · exact Or.inl rfl
  · intro slug parseDT fmParse hasOut row r h
    unfold processSRow at h
    by_cases hstate : row.proposalState = "accepted".toList ∨
        row.proposalState = "confirmed".toList
    case neg =>
      rw [if_neg hstate] at h
      exact absurd h (by simp)
    rw [if_pos hstate, Option.some.injEq] at h
    rcases hc : alookup TALK_FORMATS row.sessionType with - | cat
    · simp only [hc, Except.error.injEq] at h
      exact h.symm
    cases hasOut with
    | false =>
      simp only [hc, Bool.false_eq_true, if_false] at h
      exact absurd h (by simp)
    | true =>
      rcases hs : truthyOpt row.start with - | s
      · simp only [hc, hs, Option.map_none', if_true, Except.error.injEq]
          at h
        exact h.symm
      · simp only [hc, hs, Option.map_some', if_true] at h
        exact absurd h (by simp)
  · intro slug parseDT fmParse hasOut row r rest h
    simp only [runSchedule, h]

theorem claim_C1_failure_semantics_witness :
    (runPresenters idSlug constFM httpSvg true [] 0 [prowJane, prowNamed]
      ).length = 2 ∧
    runSchedule idSlug pdtW constFM false (srowBad :: [srowTalk]) =
      ([], some srowBad) :=
  ⟨claim_C1_failure_semantics.1 idSlug constFM httpSvg true [] 0
    [prowJane, prowNamed],
   claim_C1_failure_semantics.2.2.2 idSlug pdtW constFM false srowBad
    srowBad [srowTalk] (by rfl)⟩

/-- C3: evaluation of the photo-fetch block at concrete inputs showing that
line 239 of `main.py` (`if "." in data.photo.rsplit("/", 1):`, a membership
test on the list returned by `rsplit`) never selects the URL-suffix
branch: for the URL `http://example.com/pic.jpg` the stored filename takes
its extension from the response content type (`image/png` gives
`jane-doe.png`, not `jane-doe.jpg`), and a content type `image/svg+xml`
is a hard per-record error even though the URL carries a usable `.jpg`
suffix. -/
theorem claim_C3_extension_from_content_type :
    (presenterStep idSlug constFM httpPng true [] 0 prowJane).2.assetWrites =
      ["jane-doe.png".toList] ∧
    (presenterStep idSlug constFM httpPng true [] 0 prowJane).2.pdata.map
      (fun d => d.photo) = some (some "jane-doe.png".toList) ∧
    (presenterStep idSlug constFM httpSvg true [] 0 prowJane).2.errorReport =
      some prowJane := by
  refine ⟨by decide, by decide, by decide⟩

end Pretalx
